import Mathlib

set_option autoImplicit false

/-
Verification development for the store-project manager
(`App1/controleurs/gestion_projet.py`).  The Python class `GestionProjet`
is embedded shallowly: JSON documents become an inductive `JValue`,
Python dicts become association lists, the filesystem becomes an explicit
record of directories and files, and every method becomes a pure function
from a machine state to a new state together with an `Except`-style
outcome (an exception leaves the partially-mutated state visible, as in
Python).
-/

namespace Magasin

/-- JSON-like values as produced by `json.load` / consumed by `json.dump`.
Python dicts preserve insertion order, so objects are association lists. -/
inductive JValue where
  | null
  | bool (b : Bool)
  | num (n : Int)
  | str (s : String)
  | arr (xs : List JValue)
  | obj (kvs : List (String × JValue))

/-- An in-memory Python dict with string keys (insertion-ordered). -/
abbrev Dict := List (String × JValue)

def JValue.isArr : JValue → Bool
  | .arr _ => true
  | _ => false

/-- Python `v == t` where `t` is a `str`: only equal strings compare equal. -/
def jEqStr (v : JValue) (t : String) : Bool :=
  match v with
  | .str u => decide (u = t)
  | _ => false

/-- Python `d[key]` lookup (first matching key; dict keys are unique). -/
def dget : Dict → String → Option JValue
  | [], _ => none
  | (k, v) :: rest, key => if k = key then some v else dget rest key

/-- Python `key in d`. -/
def dmem (d : Dict) (key : String) : Bool := (dget d key).isSome

/-- Python `d[key] = v`: replaces in place if the key exists, else appends. -/
def dset : Dict → String → JValue → Dict
  | [], key, v => [(key, v)]
  | (k, w) :: rest, key, v =>
    if k = key then (key, v) :: rest else (k, w) :: dset rest key v

/-- Python `del d[key]` / the removal part of `d.pop(key)`. -/
def ddel : Dict → String → Dict
  | [], _ => []
  | (k, w) :: rest, key => if k = key then rest else (k, w) :: ddel rest key

/-- Contiguous-sublist test, used for Python `needle in haystack` on strings. -/
def isSubList (n : List Char) : List Char → Bool
  | [] => n.isEmpty
  | c :: t => n.isPrefixOf (c :: t) || isSubList n t

/-- Semantic error kinds of the operations (the Python code raises
`ValueError` with distinguishing messages, plus the built-in
`KeyError`/`TypeError`/`AttributeError` on malformed documents). -/
inductive Err where
  | invalidInput
  | duplicateProject
  | assetNotFound
  | projectNotFound
  | corruptConfig
  | deletionError
  | persistenceError
  | noActiveProject
  | keyError
  | typeError
  | attributeError
deriving DecidableEq

/-- Python `needle in v` for a string needle and an arbitrary value:
key membership on dicts, element equality on lists, substring on strings,
`TypeError` otherwise. -/
def pyInV (needle : String) (v : JValue) : Except Err Bool :=
  match v with
  | .obj kvs => .ok (dmem kvs needle)
  | .arr xs => .ok (xs.any (fun x => jEqStr x needle))
  | .str t => .ok (isSubList needle.data t.data)
  | _ => .error .typeError

/-- Whitespace stripped by Python `str.strip()` (ASCII whitespace). -/
def isPySpace (c : Char) : Bool :=
  c = ' ' || c = '\t' || c = '\n' || c = '\r' || c = '\x0b' || c = '\x0c'

def stripL (l : List Char) : List Char :=
  ((l.dropWhile isPySpace).reverse.dropWhile isPySpace).reverse

/-- Python `str.strip()`. -/
def strip (s : String) : String := ⟨stripL s.data⟩

/-- POSIX `os.path.join` for two components. -/
def pjoin (a b : String) : String :=
  if b.data.head? = some '/' then b
  else if a.data = [] ∨ a.data.getLast? = some '/' then ⟨a.data ++ b.data⟩
  else ⟨a.data ++ '/' :: b.data⟩

/-- Split a character list on `/` (Python `path.split('/')`). -/
def splitSlash : List Char → List (List Char)
  | [] => [[]]
  | c :: rest =>
    match splitSlash rest with
    | [] => [[]]
    | h :: t => if c = '/' then [] :: h :: t else (c :: h) :: t

/-- Join components with `/` (Python `'/'.join`). -/
def joinSlash : List (List Char) → List Char
  | [] => []
  | [x] => x
  | x :: y :: rest => x ++ '/' :: joinSlash (y :: rest)

/-- One step of `posixpath.normpath`'s component merge. -/
def npKeep (isAbs : Bool) (acc : List (List Char)) (comp : List Char) :
    List (List Char) :=
  if comp = [] ∨ comp = ['.'] then acc
  else if comp ≠ ['.', '.'] ∨ (isAbs = false ∧ acc = []) ∨
      acc.getLast? = some ['.', '.'] then acc ++ [comp]
  else acc.dropLast

/-- `posixpath.normpath`'s count of initial slashes to preserve. -/
def npSlashes (l : List Char) : Nat :=
  if l.head? = some '/' then
    if l.take 2 = ['/', '/'] ∧ l.take 3 ≠ ['/', '/', '/'] then 2 else 1
  else 0

def normpathL (l : List Char) : List Char :=
  if l = [] then ['.']
  else
    let merged := (splitSlash l).foldl (npKeep (decide (0 < npSlashes l))) []
    let res := List.replicate (npSlashes l) '/' ++ joinSlash merged
    if res = [] then ['.'] else res

/-- POSIX `os.path.normpath`. -/
def normpath (s : String) : String := ⟨normpathL s.data⟩

/-- Python `s.replace("\\", "/")`. -/
def slashify (s : String) : String :=
  ⟨s.data.map (fun c => if c = '\\' then '/' else c)⟩

/-- POSIX `os.path.splitext` on a character list. -/
def splitextL (l : List Char) : List Char × List Char :=
  let base := (l.reverse.takeWhile (fun c => c ≠ '/')).reverse
  let extRev := base.reverse.takeWhile (fun c => c ≠ '.')
  if extRev.length = base.length then (l, [])
  else
    let stem := base.take (base.length - extRev.length - 1)
    if stem.any (fun c => c ≠ '.') then
      (l.take (l.length - base.length) ++ stem, '.' :: extRev.reverse)
    else (l, [])

/-- POSIX `os.path.splitext`. -/
def splitext (s : String) : String × String :=
  let p := splitextL s.data
  (⟨p.1⟩, ⟨p.2⟩)

/-- Content of a file: a document that parses as JSON, or raw bytes
(a plan image, or text `json.load` rejects). -/
inductive FileData where
  | json (v : JValue)
  | raw

/-- The filesystem: the set of existing directories and the files with
their contents, both keyed by path string. -/
structure FS where
  dirs : List String
  files : List (String × FileData)

def FS.isdir (fs : FS) (p : String) : Bool := fs.dirs.contains p

def FS.fileData (fs : FS) (p : String) : Option FileData :=
  (fs.files.find? (fun q => q.1 = p)).map (fun q => q.2)

def FS.isfile (fs : FS) (p : String) : Bool := (fs.fileData p).isSome

/-- `os.path.exists`: a directory or a file. -/
def FS.pathExists (fs : FS) (p : String) : Bool := fs.isdir p || fs.isfile p

/-- `os.makedirs` (the leaf directory; intermediate directories are not
tracked because no operation ever consults them). -/
def FS.mkdir (fs : FS) (p : String) : FS := { fs with dirs := p :: fs.dirs }

def FS.writeFile (fs : FS) (p : String) (d : FileData) : FS :=
  { fs with files := (p, d) :: fs.files.filter (fun q => ¬ q.1 = p) }

/-- `shutil.copy2` (creer checks the source exists beforehand). -/
def FS.copy2 (fs : FS) (src dst : String) : FS :=
  match fs.fileData src with
  | some d => fs.writeFile dst d
  | none => fs

def pathUnder (root q : String) : Bool :=
  decide (root = q) || (root.data ++ ['/']).isPrefixOf q.data

/-- `shutil.rmtree`: removes the directory and everything below it. -/
def FS.rmtree (fs : FS) (p : String) : FS :=
  { dirs := fs.dirs.filter (fun q => ¬ pathUnder p q = true),
    files := fs.files.filter (fun q => ¬ pathUnder p q.1 = true) }

/-- Modelled from the spec: the projects-root constant `DOSSIER_PROJETS`
is imported from `config.py`, which is not part of the sources at hand.
The spec fixes that a project lives at `<projects-root>/<name>/` and that
the plan copy (whose destination the code hard-codes under
`App1/projets/<name>/`) lands inside that same project directory, so the
projects root is `App1/projets`. -/
def DOSSIER_PROJETS : String := "App1/projets"

/-- The machine state: the filesystem plus the `GestionProjet` instance
(its single attribute `projet_actuel`). -/
structure S where
  fs : FS
  projet_actuel : Option Dict

/-- Python truthiness of `self.projet_actuel` (a dict is falsy iff empty). -/
def isActive : Option Dict → Bool
  | none => false
  | some d => !d.isEmpty

/-- `GestionProjet.sauvegarder` (lines 144-159): serialize the current
project to `<projects-root>/<name>/config.json`; any `open`/write failure
is wrapped into a `ValueError` (here `persistenceError`). -/
def sauvegarder (s : S) : S × Except Err Unit :=
  if isActive s.projet_actuel then
    match s.projet_actuel with
    | none => (s, .error .noActiveProject)
    | some d =>
      match dget d "nom" with
      | none => (s, .error .keyError)
      | some (.str n) =>
        if s.fs.isdir (pjoin DOSSIER_PROJETS n) then
          (⟨s.fs.writeFile (pjoin (pjoin DOSSIER_PROJETS n) "config.json")
            (.json (.obj d)), s.projet_actuel⟩, .ok ())
        else (s, .error .persistenceError)
      | some _ => (s, .error .typeError)
  else (s, .error .noActiveProject)

/-- `GestionProjet.creer_projet` (lines 31-85). -/
def creer_projet (s : S) (nom magasin auteur plan : String) :
    S × Except Err Unit :=
  if nom = "" ∨ magasin = "" ∨ auteur = "" ∨ plan = "" then
    (s, .error .invalidInput)
  else
    let nom := strip nom
    if nom = "" then (s, .error .invalidInput)
    else
      let mon_dossier := pjoin DOSSIER_PROJETS nom
      if s.fs.pathExists mon_dossier then (s, .error .duplicateProject)
      else if s.fs.isfile plan then
        let fs1 := s.fs.mkdir mon_dossier
        let extension := (splitext plan).2
        let mon_plan :=
          normpath (pjoin (pjoin (pjoin "App1" "projets") nom)
            ("plan" ++ extension))
        let fs2 := fs1.copy2 plan mon_plan
        let mon_plan2 := slashify mon_plan
        let ma_config : Dict :=
          [("nom", .str nom), ("magasin", .str magasin),
           ("auteur", .str auteur), ("chemin_plan", .str mon_plan2),
           ("produits", .obj [])]
        let mon_fichier := pjoin mon_dossier "config.json"
        let fs3 := fs2.writeFile mon_fichier (.json (.obj ma_config))
        ({ fs := fs3, projet_actuel := some ma_config }, .ok ())
      else (s, .error .assetNotFound)

/-- Python `all(champ in ma_config for champ in champs)` over a parsed
document (short-circuiting, raising `TypeError` on non-container docs). -/
def allIn (v : JValue) : List String → Except Err Bool
  | [] => .ok true
  | k :: rest =>
    match pyInV k v with
    | .error e => .error e
    | .ok false => .ok false
    | .ok true => allIn v rest

/-- The legacy-placements normalization of `charger_projet`
(lines 113-119): an `if`/`elif` chain, so a document carrying the legacy
key has its value moved unchanged and the list-to-dict coercion is only
reached under the canonical key. -/
def normaliseProduits (d : Dict) : Dict :=
  if dmem d "produits_par_case" then
    dset (ddel d "produits_par_case") "produits"
      ((dget d "produits_par_case").getD .null)
  else if ¬ dmem d "produits" then dset d "produits" (.obj [])
  else
    match dget d "produits" with
    | some (.arr _) => dset d "produits" (.obj [])
    | _ => d

/-- `GestionProjet.charger_projet` (lines 87-123). -/
def charger_projet (s : S) (nom : String) : S × Except Err Dict :=
  let mon_dossier := pjoin DOSSIER_PROJETS nom
  if s.fs.isdir mon_dossier then
    let mon_fichier := pjoin mon_dossier "config.json"
    match s.fs.fileData mon_fichier with
    | none => (s, .error .corruptConfig)
    | some .raw => (s, .error .corruptConfig)
    | some (.json v) =>
      match allIn v ["nom", "magasin", "auteur", "chemin_plan"] with
      | .error e => (s, .error e)
      | .ok false => (s, .error .invalidInput)
      | .ok true =>
        match v with
        | .obj ma_config =>
          match dget ma_config "chemin_plan" with
          | some (.str p) =>
            let c1 := dset ma_config "chemin_plan"
              (.str (slashify (normpath p)))
            let c2 := normaliseProduits c1
            ({ s with projet_actuel := some c2 }, .ok c2)
          | some _ => (s, .error .typeError)
          | none => (s, .error .keyError)
        | _ => (s, .error .typeError)
  else (s, .error .projectNotFound)

/-- `GestionProjet.supprimer_projet` (lines 125-142). -/
def supprimer_projet (s : S) (nom : String) : S × Except Err Unit :=
  let mon_dossier := pjoin DOSSIER_PROJETS nom
  if s.fs.isdir mon_dossier then
    let s1 : S := { s with fs := s.fs.rmtree mon_dossier }
    if isActive s1.projet_actuel then
      match s1.projet_actuel with
      | none => (s1, .ok ())
      | some d =>
        match dget d "nom" with
        | none => (s1, .error .keyError)
        | some v =>
          if jEqStr v nom then ({ s1 with projet_actuel := none }, .ok ())
          else (s1, .ok ())
    else (s1, .ok ())
  else (s, .error .projectNotFound)

/-- `GestionProjet.obtenir_produits_case` (lines 161-168). -/
def obtenir_produits_case (s : S) (caseK : String) : Except Err JValue :=
  if isActive s.projet_actuel then
    match s.projet_actuel with
    | none => .ok (.arr [])
    | some d =>
      match dget d "produits" with
      | none => .error .keyError
      | some (.obj kvs) => .ok ((dget kvs caseK).getD (.arr []))
      | some _ => .error .attributeError
  else .ok (.arr [])

/-- `GestionProjet.definir_produits_case` (lines 170-182): mutate the
in-memory mapping first, then persist; a persistence failure leaves the
mutation in place. -/
def definir_produits_case (s : S) (caseK : String) (produits : List JValue) :
    S × Except Err Unit :=
  if isActive s.projet_actuel then
    match s.projet_actuel with
    | none => (s, .error .noActiveProject)
    | some d =>
      if produits.isEmpty = false then
        match dget d "produits" with
        | none => (s, .error .keyError)
        | some (.obj kvs) =>
          let d2 := dset d "produits" (.obj (dset kvs caseK (.arr produits)))
          sauvegarder { s with projet_actuel := some d2 }
        | some _ => (s, .error .typeError)
      else
        match dget d "produits" with
        | none => (s, .error .keyError)
        | some v =>
          match pyInV caseK v with
          | .error e => (s, .error e)
          | .ok true =>
            match v with
            | .obj kvs =>
              let d2 := dset d "produits" (.obj (ddel kvs caseK))
              sauvegarder { s with projet_actuel := some d2 }
            | _ => (s, .error .typeError)
          | .ok false => sauvegarder s
  else (s, .error .noActiveProject)

/-- Python `list.extend(v)` on the accumulator (iterates strings
character-wise and dicts key-wise; `TypeError` on non-iterables). -/
def pyExtend (acc : List JValue) (v : JValue) : Except Err (List JValue) :=
  match v with
  | .arr xs => .ok (acc ++ xs)
  | .str t => .ok (acc ++ t.data.map (fun c => .str ⟨[c]⟩))
  | .obj kvs => .ok (acc ++ kvs.map (fun p => .str p.1))
  | _ => .error .typeError

def extendAll (acc : List JValue) : List (String × JValue) →
    Except Err (List JValue)
  | [] => .ok acc
  | (_, v) :: rest =>
    match pyExtend acc v with
    | .error e => .error e
    | .ok acc2 => extendAll acc2 rest

/-- `GestionProjet.obtenir_tous_produits_places` (lines 184-195). -/
def obtenir_tous_produits_places (s : S) : Except Err (List JValue) :=
  if isActive s.projet_actuel then
    match s.projet_actuel with
    | none => .ok []
    | some d =>
      match dget d "produits" with
      | none => .error .keyError
      | some (.obj kvs) => extendAll [] kvs
      | some _ => .error .attributeError
  else .ok []

def scanPlacements (produit : String) : List (String × JValue) →
    Except Err (Option String)
  | [] => .ok none
  | (k, v) :: rest =>
    match pyInV produit v with
    | .error e => .error e
    | .ok true => .ok (some k)
    | .ok false => scanPlacements produit rest

/-- `GestionProjet.trouver_case_produit` (lines 197-207). -/
def trouver_case_produit (s : S) (produit : String) :
    Except Err (Option String) :=
  if isActive s.projet_actuel then
    match s.projet_actuel with
    | none => .ok none
    | some d =>
      match dget d "produits" with
      | none => .error .keyError
      | some (.obj kvs) => scanPlacements produit kvs
      | some _ => .error .attributeError
  else .ok none

/-- The project directory path computed by the operations (lines 50, 93,
130, 152). -/
def projDir (nom : String) : String := pjoin DOSSIER_PROJETS nom

/-- The configuration-document path of a project (lines 80, 98, 153). -/
def configPath (nom : String) : String := pjoin (projDir nom) "config.json"

/-- The plan-copy destination inside the project directory. -/
def planDest (nom ext : String) : String := pjoin (projDir nom) ("plan" ++ ext)

/-- A well-formed project name: a single path component (the operations
join it between path separators, so names carrying separators or dot
components denote other filesystem locations and fall outside the string
model of paths). -/
def cleanName (x : String) : Prop :=
  x ≠ "" ∧ x ≠ "." ∧ x ≠ ".." ∧ '/' ∉ x.data ∧ '\\' ∉ x.data

/-- A well-formed plan-file extension (no path separators). -/
def cleanExt (x : String) : Prop := '/' ∉ x.data ∧ '\\' ∉ x.data

/-- A path component `posixpath.normpath` keeps verbatim. -/
def cleanL (c : List Char) : Prop :=
  c ≠ [] ∧ c ≠ ['.'] ∧ c ≠ ['.', '.'] ∧ '/' ∉ c

/-- The document `creer_projet` builds (lines 71-77). -/
def creerCfg (nom magasin auteur cheminPlan : String) : Dict :=
  [("nom", .str nom), ("magasin", .str magasin), ("auteur", .str auteur),
   ("chemin_plan", .str cheminPlan), ("produits", .obj [])]

/-- The spec invariant: no location key is bound to an empty sequence. -/
def noEmptySeq (pm : List (String × JValue)) : Prop :=
  ∀ p ∈ pm, p.2 ≠ .arr []

/-- The invariant lifted to the current project (vacuous when the
placements field is absent or not a mapping). -/
def invPlacements : Option Dict → Prop
  | none => True
  | some d => ∀ pm, dget d "produits" = some (.obj pm) → noEmptySeq pm

def Inv (s : S) : Prop := invPlacements s.projet_actuel

/-- Hypothesis for the load part of the amended C5: the persisted
document for `nom` (when it is a JSON object) carries no empty sequence
in its placements mapping, under either the legacy or the canonical key. -/
def DiskOk (s : S) (nom : String) : Prop :=
  match s.fs.fileData (pjoin (pjoin DOSSIER_PROJETS nom) "config.json") with
  | some (.json (.obj d)) =>
    (∀ pm, dget d "produits_par_case" = some (.obj pm) → noEmptySeq pm) ∧
    (dmem d "produits_par_case" = false →
      ∀ pm, dget d "produits" = some (.obj pm) → noEmptySeq pm)
  | _ => True

/-- Specification-side reading of `findLocationOf`: does this location's
product sequence contain the product? -/
def seqContains (v : JValue) (p : String) : Bool :=
  match v with
  | .arr xs => xs.any (fun x => jEqStr x p)
  | _ => false

/-- A persisted document carrying the legacy placements key with the
legacy empty-list value. -/
def legacyDoc : Dict :=
  [("nom", .str "legacy"), ("magasin", .str "m"), ("auteur", .str "a"),
   ("chemin_plan", .str "plan.png"), ("produits_par_case", .arr [])]

/-- A store whose project `legacy` is persisted with `legacyDoc`. -/
def sC1 : S :=
  ⟨⟨["App1/projets/legacy"],
    [("App1/projets/legacy/config.json", .json (.obj legacyDoc))]⟩, none⟩

/-- What `charger_projet` actually produces from `legacyDoc`: the legacy
value is renamed but kept as an empty list, not coerced to a mapping. -/
def cfgC1 : Dict :=
  [("nom", .str "legacy"), ("magasin", .str "m"), ("auteur", .str "a"),
   ("chemin_plan", .str "plan.png"), ("produits", .arr [])]

/-- A persisted document whose placements mapping binds a key to an
empty sequence. -/
def badDoc : Dict :=
  [("nom", .str "pbad"), ("magasin", .str "m"), ("auteur", .str "a"),
   ("chemin_plan", .str "p.png"), ("produits", .obj [("A", .arr [])])]

/-- A store whose project `pbad` is persisted with `badDoc`. -/
def sC5 : S :=
  ⟨⟨["App1/projets/pbad"],
    [("App1/projets/pbad/config.json", .json (.obj badDoc))]⟩, none⟩

/-- A fresh store holding only a plan asset, for creation scenarios. -/
def sW : S := ⟨⟨[], [("assets/map.png", .raw)]⟩, none⟩

/-- An empty filesystem with no current project. -/
def sEmpty : S := ⟨⟨[], []⟩, none⟩

/-- An in-memory project document in canonical shape. -/
def curDoc : Dict :=
  [("nom", .str "p1"), ("magasin", .str "m"), ("auteur", .str "a"),
   ("chemin_plan", .str "App1/projets/p1/plan.png"),
   ("produits", .obj [("B", .arr [.str "z"])])]

/-- A store with `curDoc` both current and persisted. -/
def sCur : S :=
  ⟨⟨["App1/projets/p1"],
    [("App1/projets/p1/config.json", .json (.obj curDoc))]⟩, some curDoc⟩

/-- No placement-reading or -writing operation reports a missing-key
failure from this state (the conclusion of C10). -/
def noKeyErrState (s : S) : Prop :=
  ∀ k P, obtenir_produits_case s k ≠ .error .keyError ∧
    (definir_produits_case s k P).2 ≠ .error .keyError ∧
    obtenir_tous_produits_places s ≠ .error .keyError ∧
    trouver_case_produit s k ≠ .error .keyError

/-! Dictionary lemmas. -/

theorem dget_dset_self (d : Dict) (k : String) (v : JValue) :
    dget (dset d k v) k = some v := by
  induction d with
  | nil => simp [dset, dget]
  | cons p rest ih =>
    obtain ⟨k', w⟩ := p
    by_cases h : k' = k
    · simp [dset, h, dget]
    · simp [dset, h, dget, ih]

theorem dget_dset_ne (d : Dict) (k k' : String) (v : JValue) (h : k' ≠ k) :
    dget (dset d k v) k' = dget d k' := by
  have hne : ¬ k = k' := fun hh => h hh.symm
  induction d with
  | nil => simp [dset, dget, hne]
  | cons p rest ih =>
    obtain ⟨k0, w⟩ := p
    by_cases h0 : k0 = k
    · subst h0
      simp [dset, dget, hne]
    · simp [dset, h0, dget, ih]

theorem dget_ddel_ne (d : Dict) (k k' : String) (h : k' ≠ k) :
    dget (ddel d k) k' = dget d k' := by
  have hne : ¬ k = k' := fun hh => h hh.symm
  induction d with
  | nil => simp [ddel]
  | cons p rest ih =>
    obtain ⟨k0, w⟩ := p
    by_cases h0 : k0 = k
    · subst h0
      simp [ddel, dget, hne]
    · simp [ddel, h0, dget, ih]

theorem dset_ne_nil (d : Dict) (k : String) (v : JValue) :
    dset d k v ≠ [] := by
  cases d with
  | nil => simp [dset]
  | cons p rest =>
    obtain ⟨k0, w⟩ := p
    by_cases h0 : k0 = k <;> simp [dset, h0]

theorem dmem_dset_self (d : Dict) (k : String) (v : JValue) :
    dmem (dset d k v) k = true := by
  simp [dmem, dget_dset_self]

theorem dmem_dset_ne (d : Dict) (k k' : String) (v : JValue) (h : k' ≠ k) :
    dmem (dset d k v) k' = dmem d k' := by
  simp [dmem, dget_dset_ne d k k' v h]

theorem dmem_ddel_ne (d : Dict) (k k' : String) (h : k' ≠ k) :
    dmem (ddel d k) k' = dmem d k' := by
  simp [dmem, dget_ddel_ne d k k' h]

theorem isEmpty_false_of_ne_nil {l : Dict} (h : l ≠ []) :
    l.isEmpty = false := by
  cases l with
  | nil => exact absurd rfl h
  | cons a t => rfl

theorem dget_isSome_ne_nil {d : Dict} {k : String} {v : JValue}
    (h : dget d k = some v) : d ≠ [] := by
  cases d with
  | nil => simp [dget] at h
  | cons p rest => simp

/-! Filesystem lemmas. -/

theorem find?_filter_ne {α : Type} (l : List (String × α)) (p q : String)
    (h : q ≠ p) :
    (l.filter (fun r => ¬ r.1 = p)).find? (fun r => r.1 = q) =
      l.find? (fun r => r.1 = q) := by
  induction l with
  | nil => rfl
  | cons a t ih =>
    by_cases h1 : a.1 = p
    · have h2 : ¬ a.1 = q := fun hh => h (hh.symm.trans h1)
      rw [List.filter_cons, if_neg (by simp [h1]), ih,
        List.find?_cons_of_neg _ (by simp [h2])]
    · rw [List.filter_cons, if_pos (by simp [h1])]
      by_cases h2 : a.1 = q
      · rw [List.find?_cons_of_pos _ (by simp [h2]),
          List.find?_cons_of_pos _ (by simp [h2])]
      · rw [List.find?_cons_of_neg _ (by simp [h2]),
          List.find?_cons_of_neg _ (by simp [h2]), ih]

theorem fileData_writeFile_self (fs : FS) (p : String) (d : FileData) :
    (fs.writeFile p d).fileData p = some d := by
  simp [FS.writeFile, FS.fileData, List.find?]

theorem fileData_writeFile_ne (fs : FS) (p q : String) (d : FileData)
    (h : q ≠ p) : (fs.writeFile p d).fileData q = fs.fileData q := by
  unfold FS.writeFile FS.fileData
  rw [List.find?_cons_of_neg _ (by simpa using Ne.symm h),
    find?_filter_ne fs.files p q h]

theorem isdir_writeFile (fs : FS) (p q : String) (d : FileData) :
    (fs.writeFile p d).isdir q = fs.isdir q := rfl

theorem isdir_mkdir_self (fs : FS) (p : String) :
    (fs.mkdir p).isdir p = true := by
  simp [FS.mkdir, FS.isdir]

/-! Path lemmas: on well-formed component names, the path functions of
the code reduce to plain string concatenation. -/

theorem data_ne_nil {x : String} (h : x ≠ "") : x.data ≠ [] :=
  fun hh => h (String.ext_iff.mpr (by simp [hh]))

theorem mem_of_lastQ {x : Char} : ∀ {l : List Char},
    l.getLast? = some x → x ∈ l := by
  intro l
  induction l with
  | nil => intro h; simp [List.getLast?] at h
  | cons c t ih =>
    intro h
    cases t with
    | nil =>
      simp [List.getLast?] at h
      simp [h]
    | cons c2 t2 =>
      rw [List.getLast?_cons_cons] at h
      exact List.mem_cons_of_mem c (ih h)

theorem pjoin_clean (a b : String) (ha : a.data ≠ [])
    (hal : a.data.getLast? ≠ some '/') (hb : b.data ≠ [])
    (hbh : '/' ∉ b.data) : pjoin a b = ⟨a.data ++ '/' :: b.data⟩ := by
  obtain ⟨c, t, hct⟩ := List.exists_cons_of_ne_nil hb
  have hc : c ≠ '/' := fun hh => hbh (hct ▸ (hh ▸ List.mem_cons_self c t))
  unfold pjoin
  rw [if_neg (by rw [hct]; simp [hc]), if_neg (not_or_intro ha hal)]

theorem splitSlash_ne_nil (l : List Char) : splitSlash l ≠ [] := by
  cases l with
  | nil => simp [splitSlash]
  | cons c t =>
    unfold splitSlash
    cases splitSlash t with
    | nil => simp
    | cons h0 t0 =>
      by_cases hc : c = '/' <;> simp [hc]

theorem splitSlash_no_slash (x : List Char) (h : '/' ∉ x) :
    splitSlash x = [x] := by
  induction x with
  | nil => rfl
  | cons c t ih =>
    have hc : ¬ c = '/' := fun hh => h (hh ▸ List.mem_cons_self c t)
    have ht : '/' ∉ t := fun hh => h (List.mem_cons_of_mem c hh)
    simp [splitSlash, ih ht, hc]

theorem splitSlash_append (x m : List Char) (h : '/' ∉ x) :
    splitSlash (x ++ '/' :: m) = x :: splitSlash m := by
  induction x with
  | nil =>
    cases hsm : splitSlash m with
    | nil => exact absurd hsm (splitSlash_ne_nil m)
    | cons h0 t0 => simp [splitSlash, hsm]
  | cons c t ih =>
    have hc : ¬ c = '/' := fun hh => h (hh ▸ List.mem_cons_self c t)
    have ht : '/' ∉ t := fun hh => h (List.mem_cons_of_mem c hh)
    simp [splitSlash, ih ht, hc]

theorem joinSlash_cons2 (x y : List Char) (rest : List (List Char)) :
    joinSlash (x :: y :: rest) = x ++ '/' :: joinSlash (y :: rest) := rfl

theorem npKeep_clean (ab : Bool) (acc : List (List Char)) (c : List Char)
    (h : cleanL c) : npKeep ab acc c = acc ++ [c] := by
  obtain ⟨h1, h2, h3, _⟩ := h
  unfold npKeep
  rw [if_neg (not_or_intro h1 h2), if_pos (Or.inl h3)]

theorem foldl_npKeep_clean (ab : Bool) (comps acc : List (List Char))
    (h : ∀ c ∈ comps, cleanL c) :
    comps.foldl (npKeep ab) acc = acc ++ comps := by
  induction comps generalizing acc with
  | nil => simp
  | cons c rest ih =>
    rw [List.foldl_cons, npKeep_clean ab acc c (h c (by simp)),
      ih (acc ++ [c]) (fun x hx => h x (by simp [hx]))]
    simp

theorem splitSlash_joinSlash (comps : List (List Char)) (hne : comps ≠ [])
    (h : ∀ c ∈ comps, '/' ∉ c) :
    splitSlash (joinSlash comps) = comps := by
  induction comps with
  | nil => exact absurd rfl hne
  | cons a rest ih =>
    cases rest with
    | nil => exact splitSlash_no_slash a (h a (by simp))
    | cons b rest2 =>
      rw [joinSlash_cons2, splitSlash_append a _ (h a (by simp)),
        ih (by simp) (fun x hx => h x (by simp [hx]))]

theorem normpathL_clean (comps : List (List Char)) (hne : comps ≠ [])
    (h : ∀ c ∈ comps, cleanL c) :
    normpathL (joinSlash comps) = joinSlash comps := by
  obtain ⟨a, rest, rfl⟩ := List.exists_cons_of_ne_nil hne
  have ha := h a (by simp)
  obtain ⟨c0, a', rfl⟩ := List.exists_cons_of_ne_nil ha.1
  have hc0 : c0 ≠ '/' := fun hh => ha.2.2.2 (hh ▸ List.mem_cons_self c0 a')
  have hjoin : ∃ m, joinSlash ((c0 :: a') :: rest) = c0 :: (a' ++ m) := by
    cases rest with
    | nil => exact ⟨[], by simp [joinSlash]⟩
    | cons b r => exact ⟨'/' :: joinSlash (b :: r), rfl⟩
  obtain ⟨m, hm⟩ := hjoin
  have hne2 : joinSlash ((c0 :: a') :: rest) ≠ [] := by rw [hm]; simp
  have hs : npSlashes (joinSlash ((c0 :: a') :: rest)) = 0 := by
    rw [hm]; simp [npSlashes, hc0]
  have hsplit : splitSlash (joinSlash ((c0 :: a') :: rest)) =
      (c0 :: a') :: rest :=
    splitSlash_joinSlash _ (by simp) (fun x hx => (h x hx).2.2.2)
  simp only [normpathL, if_neg hne2, hs, hsplit, Nat.lt_irrefl,
    decide_False, foldl_npKeep_clean false _ [] h, List.nil_append,
    List.replicate, if_neg hne2]

theorem map_slash_id (l : List Char) (h : '\\' ∉ l) :
    l.map (fun c => if c = '\\' then '/' else c) = l := by
  induction l with
  | nil => rfl
  | cons c t ih =>
    have hc : ¬ c = '\\' := fun hh => h (hh ▸ List.mem_cons_self c t)
    have ht : '\\' ∉ t := fun hh => h (List.mem_cons_of_mem c hh)
    simp [hc, ih ht]

theorem slashify_of_no_backslash (s : String) (h : '\\' ∉ s.data) :
    slashify s = s := by
  unfold slashify
  exact String.ext_iff.mpr (by simp [map_slash_id s.data h])

theorem cleanName_data {x : String} (h : cleanName x) : cleanL x.data := by
  obtain ⟨h1, h2, h3, h4, _⟩ := h
  exact ⟨data_ne_nil h1, fun hh => h2 (String.ext_iff.mpr (hh.trans rfl)),
    fun hh => h3 (String.ext_iff.mpr (hh.trans rfl)), h4⟩

theorem planComp_cleanL (ext : String) (he : cleanExt ext) :
    cleanL ('p' :: 'l' :: 'a' :: 'n' :: ext.data) := by
  refine ⟨by simp, by simp, by simp, ?_⟩
  simp [he.1]

theorem projDir_clean (nom : String) (hn : cleanName nom) :
    projDir nom = ⟨"App1/projets".data ++ '/' :: nom.data⟩ :=
  pjoin_clean _ _ (by decide) (by decide) (data_ne_nil hn.1) hn.2.2.2.1

theorem lastQ_dirData (nom : String) (hn : cleanName nom) :
    ("App1/projets".data ++ '/' :: nom.data).getLast? ≠ some '/' := by
  rw [List.getLast?_append_of_ne_nil _ (by simp : ('/' :: nom.data) ≠ [])]
  have h2 : ('/' :: nom.data) = ['/'] ++ nom.data := rfl
  rw [h2, List.getLast?_append_of_ne_nil _ (data_ne_nil hn.1)]
  exact fun hh => hn.2.2.2.1 (mem_of_lastQ hh)

theorem configPath_clean (nom : String) (hn : cleanName nom) :
    configPath nom =
      ⟨"App1/projets".data ++ '/' :: nom.data ++ '/' :: "config.json".data⟩ := by
  unfold configPath
  rw [projDir_clean nom hn, pjoin_clean _ _ (by simp) (lastQ_dirData nom hn)
    (by decide) (by decide)]

theorem planDest_clean (nom ext : String) (hn : cleanName nom)
    (he : cleanExt ext) :
    planDest nom ext =
      ⟨"App1/projets".data ++ '/' :: nom.data ++ '/' ::
        'p' :: 'l' :: 'a' :: 'n' :: ext.data⟩ := by
  unfold planDest
  rw [projDir_clean nom hn, pjoin_clean _ _ (by simp) (lastQ_dirData nom hn)
    (by simp [String.data_append]) (by simp [String.data_append, he.1])]
  exact String.ext_iff.mpr (by simp [String.data_append])

theorem normpathL_planPath (nom ext : String) (hn : cleanName nom)
    (he : cleanExt ext) :
    normpathL ("App1/projets".data ++ '/' :: nom.data ++ '/' ::
        'p' :: 'l' :: 'a' :: 'n' :: ext.data) =
      "App1/projets".data ++ '/' :: nom.data ++ '/' ::
        'p' :: 'l' :: 'a' :: 'n' :: ext.data := by
  have hD : ("App1/projets".data ++ '/' :: nom.data ++ '/' ::
      'p' :: 'l' :: 'a' :: 'n' :: ext.data) =
      joinSlash ["App1".data, "projets".data, nom.data,
        'p' :: 'l' :: 'a' :: 'n' :: ext.data] := by
    have hA : "App1/projets".data = "App1".data ++ '/' :: "projets".data := by
      decide
    show _ = "App1".data ++ '/' :: ("projets".data ++ '/' ::
      (nom.data ++ '/' :: ('p' :: 'l' :: 'a' :: 'n' :: ext.data)))
    rw [hA]
    simp [List.append_assoc]
  rw [hD]
  exact normpathL_clean _ (by simp)
    (by
      intro c hc
      simp at hc
      rcases hc with h | h | h | h
      · exact h ▸ (⟨by decide, by decide, by decide, by decide⟩ : cleanL _)
      · exact h ▸ (⟨by decide, by decide, by decide, by decide⟩ : cleanL _)
      · exact h ▸ cleanName_data hn
      · exact h ▸ planComp_cleanL ext he)

theorem mon_plan_raw (nom ext : String) (hn : cleanName nom)
    (he : cleanExt ext) :
    normpath (pjoin (pjoin (pjoin "App1" "projets") nom) ("plan" ++ ext)) =
      planDest nom ext := by
  have h0 : pjoin (pjoin (pjoin "App1" "projets") nom) ("plan" ++ ext) =
      planDest nom ext := by
    have h : pjoin "App1" "projets" = DOSSIER_PROJETS := by decide
    rw [h]; rfl
  rw [h0, planDest_clean nom ext hn he]
  exact String.ext_iff.mpr (normpathL_planPath nom ext hn he)

theorem mon_plan_final (nom ext : String) (hn : cleanName nom)
    (he : cleanExt ext) :
    slashify (normpath (pjoin (pjoin (pjoin "App1" "projets") nom)
      ("plan" ++ ext))) = planDest nom ext := by
  rw [mon_plan_raw nom ext hn he, planDest_clean nom ext hn he]
  refine slashify_of_no_backslash _ ?_
  show '\\' ∉ ("App1/projets".data ++ '/' :: nom.data ++ '/' ::
    'p' :: 'l' :: 'a' :: 'n' :: ext.data)
  simp [hn.2.2.2.2, he.2]

theorem configPath_ne_planDest (nom ext : String) (hn : cleanName nom)
    (he : cleanExt ext) : ¬ configPath nom = planDest nom ext := by
  rw [configPath_clean nom hn, planDest_clean nom ext hn he]
  intro hh
  have hd : ("App1/projets".data ++ '/' :: nom.data ++ '/' ::
      "config.json".data) = ("App1/projets".data ++ '/' :: nom.data ++ '/' ::
      'p' :: 'l' :: 'a' :: 'n' :: ext.data) := congrArg String.data hh
  have h1 : '/' :: (nom.data ++ '/' :: "config.json".data) =
      '/' :: (nom.data ++ '/' :: ('p' :: 'l' :: 'a' :: 'n' :: ext.data)) :=
    (List.append_right_inj "App1/projets".data).mp hd
  injection h1 with _ h2
  have h3 : '/' :: "config.json".data =
      '/' :: ('p' :: 'l' :: 'a' :: 'n' :: ext.data) :=
    (List.append_right_inj nom.data).mp h2
  injection h3 with _ h4
  injection h4 with h5 _
  exact absurd h5 (by decide)

/-! Operation-level characterizations on well-formed inputs. -/

theorem allIn_obj_true (d : Dict) (ks : List String)
    (h : ∀ k ∈ ks, dmem d k = true) : allIn (.obj d) ks = .ok true := by
  induction ks with
  | nil => rfl
  | cons k rest ih =>
    simp [allIn, pyInV, h k (by simp), ih fun x hx => h x (by simp [hx])]

theorem creer_spec (s : S) (nom magasin auteur plan : String) (pd : FileData)
    (hn : cleanName nom) (hstrip : strip nom = nom)
    (hm : magasin ≠ "") (ha : auteur ≠ "") (hp : plan ≠ "")
    (hex : s.fs.pathExists (projDir nom) = false)
    (hplan : s.fs.fileData plan = some pd)
    (he : cleanExt (splitext plan).2) :
    creer_projet s nom magasin auteur plan =
      ({ fs := { dirs := projDir nom :: s.fs.dirs,
                 files := (configPath nom,
                     .json (.obj (creerCfg nom magasin auteur
                       (planDest nom (splitext plan).2)))) ::
                   (planDest nom (splitext plan).2, pd) ::
                   ((s.fs.files.filter
                     (fun q => ¬ q.1 = planDest nom (splitext plan).2)).filter
                     (fun q => ¬ q.1 = configPath nom)) },
         projet_actuel := some (creerCfg nom magasin auteur
           (planDest nom (splitext plan).2)) },
       .ok ()) := by
  have hex' : s.fs.pathExists (pjoin DOSSIER_PROJETS nom) = false := hex
  have hfile : s.fs.isfile plan = true := by simp [FS.isfile, hplan]
  have hdest := mon_plan_raw nom (splitext plan).2 hn he
  have hslash := mon_plan_final nom (splitext plan).2 hn he
  have hne := configPath_ne_planDest nom (splitext plan).2 hn he
  have hplan2 : FS.fileData
      ⟨pjoin DOSSIER_PROJETS nom :: s.fs.dirs, s.fs.files⟩ plan =
      some pd := hplan
  have hslash2 : slashify (planDest nom (splitext plan).2) =
      planDest nom (splitext plan).2 := by rw [hdest] at hslash; exact hslash
  unfold creer_projet
  rw [if_neg (by push_neg; exact ⟨hn.1, hm, ha, hp⟩), hstrip,
    if_neg hn.1, if_neg (by rw [hex']; exact Bool.false_ne_true),
    if_pos hfile]
  simp only [hdest, hslash2, FS.copy2, FS.mkdir, FS.writeFile, hplan2]
  rw [List.filter_cons,
    if_pos (by simp only [decide_eq_true_eq]; exact fun h => hne h.symm)]
  rfl

theorem charger_spec (s : S) (nom cp : String) (d : Dict)
    (hdir : s.fs.isdir (projDir nom) = true)
    (hfile : s.fs.fileData (configPath nom) = some (.json (.obj d)))
    (h1 : dmem d "nom" = true) (h2 : dmem d "magasin" = true)
    (h3 : dmem d "auteur" = true)
    (hcp : dget d "chemin_plan" = some (.str cp)) :
    charger_projet s nom =
      ({ s with projet_actuel := some (normaliseProduits
          (dset d "chemin_plan" (.str (slashify (normpath cp))))) },
       .ok (normaliseProduits (dset d "chemin_plan"
         (.str (slashify (normpath cp)))))) := by
  have hdir' : s.fs.isdir (pjoin DOSSIER_PROJETS nom) = true := hdir
  have hfile' : s.fs.fileData (pjoin (pjoin DOSSIER_PROJETS nom)
      "config.json") = some (.json (.obj d)) := hfile
  have h4 : dmem d "chemin_plan" = true := by simp [dmem, hcp]
  have hall : allIn (.obj d) ["nom", "magasin", "auteur", "chemin_plan"] =
      .ok true := by
    refine allIn_obj_true d _ (fun k hk => ?_)
    simp at hk
    rcases hk with h | h | h | h <;> subst h <;> assumption
  unfold charger_projet
  rw [if_pos hdir']
  simp only [hfile', hall, hcp]

/-- `sauvegarder` on an active project whose name field is the string
`nom` and whose directory exists: writes the document and reports
success. -/
theorem sauvegarder_spec (s : S) (d : Dict) (nom : String)
    (hcur : s.projet_actuel = some d)
    (hnom : dget d "nom" = some (.str nom))
    (hdir : s.fs.isdir (projDir nom) = true) :
    sauvegarder s =
      ({ s with fs := s.fs.writeFile (configPath nom) (.json (.obj d)) },
       .ok ()) := by
  have hne : d ≠ [] := dget_isSome_ne_nil hnom
  have hact : isActive s.projet_actuel = true := by
    rw [hcur]; simp [isActive, hne]
  have hdir' : s.fs.isdir (pjoin DOSSIER_PROJETS nom) = true := hdir
  unfold sauvegarder
  rw [if_pos hact, hcur]
  simp only [hnom, hdir', if_pos]
  rfl

/-! Claim theorems. -/

/-- C6: when the plan source path is not an existing file and every other
validation passes, `creer_projet` fails with the asset-not-found error and
the whole machine state — filesystem and current project — is returned
unchanged: the failure precedes any mutation. -/
theorem C6_create_missing_plan (s : S) (nom magasin auteur plan : String)
    (h1 : nom ≠ "") (h2 : magasin ≠ "") (h3 : auteur ≠ "") (h4 : plan ≠ "")
    (h5 : strip nom ≠ "")
    (h6 : s.fs.pathExists (projDir (strip nom)) = false)
    (h7 : s.fs.isfile plan = false) :
    creer_projet s nom magasin auteur plan = (s, .error .assetNotFound) := by
  have h6' : s.fs.pathExists (pjoin DOSSIER_PROJETS (strip nom)) = false := h6
  unfold creer_projet
  rw [if_neg (by push_neg; exact ⟨h1, h2, h3, h4⟩), if_neg h5,
    if_neg (by rw [h6']; exact Bool.false_ne_true),
    if_neg (by rw [h7]; exact Bool.false_ne_true)]

/-- Witness for C6 at a concrete input. -/
theorem C6_witness :
    creer_projet sEmpty "p1" "Mag" "Moi" "missing.png" =
      (sEmpty, .error .assetNotFound) :=
  C6_create_missing_plan sEmpty "p1" "Mag" "Moi" "missing.png" (by decide)
    (by decide) (by decide) (by decide) (by decide) rfl rfl

/-- C1 counterexample: loading a document whose legacy key
`produits_par_case` holds the legacy empty-list value succeeds but yields
a project whose `produits` field is still the empty list, not the empty
mapping the claim requires. -/
theorem C1_counterexample :
    (charger_projet sC1 "legacy").2 = .ok cfgC1 ∧
      dget cfgC1 "produits" = some (.arr []) ∧
      dget cfgC1 "produits" ≠ some (.obj []) := by
  refine ⟨rfl, rfl, fun h => ?_⟩
  injection h with h2
  exact JValue.noConfusion h2

/-- C1 amended: the coercion of a legacy empty-list placements value to
an empty mapping applies only under the canonical key `produits` (where
any list value is replaced by an empty mapping); a value stored under the
legacy key `produits_par_case` — in particular an empty list — is renamed
to the canonical key unchanged. -/
theorem C1_amended_legacy_normalization (s : S) (nom cp : String) (d : Dict)
    (v : JValue)
    (hdir : s.fs.isdir (projDir nom) = true)
    (hfile : s.fs.fileData (configPath nom) = some (.json (.obj d)))
    (h1 : dmem d "nom" = true) (h2 : dmem d "magasin" = true)
    (h3 : dmem d "auteur" = true)
    (hcp : dget d "chemin_plan" = some (.str cp)) :
    (dget d "produits_par_case" = some v →
      ∃ c, (charger_projet s nom).2 = .ok c ∧ dget c "produits" = some v) ∧
    (dmem d "produits_par_case" = false →
      ∀ xs, dget d "produits" = some (.arr xs) →
        ∃ c, (charger_projet s nom).2 = .ok c ∧
          dget c "produits" = some (.obj [])) := by
  rw [charger_spec s nom cp d hdir hfile h1 h2 h3 hcp]
  have hne1 : ("chemin_plan" : String) ≠ "produits_par_case" := by decide
  have hne2 : ("produits" : String) ≠ "produits_par_case" := by decide
  have hne3 : ("produits" : String) ≠ "chemin_plan" := by decide
  constructor
  · intro hv
    refine ⟨_, rfl, ?_⟩
    unfold normaliseProduits
    have hmem : dmem (dset d "chemin_plan" (.str (slashify (normpath cp))))
        "produits_par_case" = true := by
      rw [dmem_dset_ne d _ _ _ (fun hh => hne1 hh.symm)]
      simp [dmem, hv]
    rw [if_pos hmem,
      dget_dset_ne d _ _ _ (fun hh => hne1 hh.symm), hv]
    exact dget_dset_self _ "produits" v
  · intro hleg xs hxs
    refine ⟨_, rfl, ?_⟩
    unfold normaliseProduits
    have hmem : dmem (dset d "chemin_plan" (.str (slashify (normpath cp))))
        "produits_par_case" = false := by
      rw [dmem_dset_ne d _ _ _ (fun hh => hne1 hh.symm)]
      exact hleg
    have hprod : dget (dset d "chemin_plan" (.str (slashify (normpath cp))))
        "produits" = some (.arr xs) := by
      rw [dget_dset_ne d _ _ _ hne3]
      exact hxs
    rw [if_neg (by rw [hmem]; exact Bool.false_ne_true),
      if_neg (by simp [dmem, hprod]), hprod]
    exact dget_dset_self _ "produits" (.obj [])

/-- Witness for the amended C1 at the concrete legacy document. -/
theorem C1_witness :
    ∃ c, (charger_projet sC1 "legacy").2 = .ok c ∧
      dget c "produits" = some (.arr []) :=
  (C1_amended_legacy_normalization sC1 "legacy" "plan.png" legacyDoc
    (.arr []) rfl rfl rfl rfl rfl rfl).1 rfl

/-- C5 counterexample: `charger_projet` does not filter empty sequences
out of a persisted placements mapping, so loading `badDoc` installs a
current project whose placements bind key `A` to an empty sequence —
the load operation does not preserve the claimed invariant. -/
theorem C5_counterexample :
    (charger_projet sC5 "pbad").2 = .ok badDoc ∧
      (charger_projet sC5 "pbad").1.projet_actuel = some badDoc ∧
      dget badDoc "produits" = some (.obj [("A", .arr [])]) ∧
      ¬ noEmptySeq [("A", .arr [])] :=
  ⟨rfl, rfl, rfl, fun h => h ("A", .arr []) (by simp) rfl⟩

/-- C8: deleting the project whose name matches the current project's
name succeeds, clears the current project, and every subsequent
`obtenir_produits_case` call returns the empty sequence. -/
theorem C8_delete_clears_current (s : S) (nomv : String) (d : Dict)
    (hcur : s.projet_actuel = some d)
    (hnom : dget d "nom" = some (.str nomv))
    (hdir : s.fs.isdir (projDir nomv) = true) :
    (supprimer_projet s nomv).2 = .ok () ∧
      (supprimer_projet s nomv).1.projet_actuel = none ∧
      ∀ k, obtenir_produits_case (supprimer_projet s nomv).1 k =
        .ok (.arr []) := by
  have hdir' : s.fs.isdir (pjoin DOSSIER_PROJETS nomv) = true := hdir
  have hne : d ≠ [] := dget_isSome_ne_nil hnom
  have hie : d.isEmpty = false := by
    cases d with
    | nil => exact absurd rfl hne
    | cons a t => rfl
  have hshape : supprimer_projet s nomv =
      (⟨s.fs.rmtree (pjoin DOSSIER_PROJETS nomv), none⟩, .ok ()) := by
    unfold supprimer_projet
    rw [if_pos hdir']
    simp only [hcur, isActive, hie, Bool.not_false, if_pos, hnom]
    rw [if_pos (by simp [jEqStr])]
  rw [hshape]
  exact ⟨rfl, rfl, fun k => rfl⟩

/-- Witness for C8 at a concrete state. -/
theorem C8_witness :
    (supprimer_projet sCur "p1").2 = .ok () ∧
      (supprimer_projet sCur "p1").1.projet_actuel = none ∧
      ∀ k, obtenir_produits_case (supprimer_projet sCur "p1").1 k =
        .ok (.arr []) :=
  C8_delete_clears_current sCur "p1" curDoc rfl rfl rfl

/-- C9: a successful delete of a name that is not the current project's
name — or a delete while no current project is set — leaves the
in-memory current project unchanged. -/
theorem C9_delete_other_keeps_current (s : S) (nom : String)
    (hdir : s.fs.isdir (projDir nom) = true)
    (hother : ∀ d, s.projet_actuel = some d →
      ∃ m, dget d "nom" = some (.str m) ∧ m ≠ nom) :
    (supprimer_projet s nom).2 = .ok () ∧
      (supprimer_projet s nom).1.projet_actuel = s.projet_actuel := by
  have hdir' : s.fs.isdir (pjoin DOSSIER_PROJETS nom) = true := hdir
  unfold supprimer_projet
  rw [if_pos hdir']
  cases hc : s.projet_actuel with
  | none =>
    simp only [hc, isActive]
    rw [if_neg Bool.false_ne_true]
    exact ⟨rfl, rfl⟩
  | some d =>
    obtain ⟨m, hm, hmne⟩ := hother d hc
    have hne : d ≠ [] := dget_isSome_ne_nil hm
    have hie : d.isEmpty = false := by
      cases d with
      | nil => exact absurd rfl hne
      | cons a t => rfl
    simp only [hc, isActive, hie, Bool.not_false, if_pos, hm]
    rw [if_neg (by simp [jEqStr, hmne])]
    exact ⟨rfl, rfl⟩

/-- Witness for C9 at a concrete state. -/
theorem C9_witness :
    (supprimer_projet (⟨⟨["App1/projets/q2"], []⟩, some curDoc⟩ : S)
        "q2").2 = .ok () ∧
      (supprimer_projet (⟨⟨["App1/projets/q2"], []⟩, some curDoc⟩ : S)
        "q2").1.projet_actuel = some curDoc :=
  C9_delete_other_keeps_current ⟨⟨["App1/projets/q2"], []⟩, some curDoc⟩
    "q2" rfl (fun d hd => ⟨"p1", by cases hd; rfl, by decide⟩)

/-- `scanPlacements` agrees with the specification-side first-match scan
when every stored value is a sequence. -/
theorem scan_eq_find (p : String) (pm : List (String × JValue))
    (h : ∀ kv ∈ pm, (kv.2).isArr = true) :
    scanPlacements p pm =
      .ok ((pm.find? (fun kv => seqContains kv.2 p)).map (fun kv => kv.1)) := by
  induction pm with
  | nil => rfl
  | cons kv rest ih =>
    obtain ⟨k, v⟩ := kv
    have hv := h (k, v) (by simp)
    cases v <;> simp [JValue.isArr] at hv
    case arr xs =>
    by_cases hc : (xs.any (fun x => jEqStr x p)) = true
    · rw [List.find?_cons_of_pos _ (by simp [seqContains, hc])]
      simp [scanPlacements, pyInV, hc]
    · have hc2 : (xs.any (fun x => jEqStr x p)) = false :=
        Bool.eq_false_iff.mpr hc
      rw [List.find?_cons_of_neg _ (by simp [seqContains, hc2])]
      simp [scanPlacements, pyInV, hc2]
      exact ih fun x hx => h x (by simp [hx])

/-- C7: with a current project whose placements field is a mapping of
sequences, `trouver_case_produit` returns the first location key, in the
mapping iteration order, whose sequence contains the product, and `none`
when no sequence contains it; with no current project it returns `none`. -/
theorem C7_find_location (s : S) (p : String) (d : Dict) (fs0 : FS)
    (pm : List (String × JValue))
    (hcur : s.projet_actuel = some d)
    (hpm : dget d "produits" = some (.obj pm))
    (harr : ∀ kv ∈ pm, (kv.2).isArr = true) :
    trouver_case_produit s p =
      .ok ((pm.find? (fun kv => seqContains kv.2 p)).map (fun kv => kv.1)) ∧
    trouver_case_produit ⟨fs0, none⟩ p = .ok none := by
  constructor
  · have hne : d ≠ [] := dget_isSome_ne_nil hpm
    have hie : d.isEmpty = false := by
      cases d with
      | nil => exact absurd rfl hne
      | cons a t => rfl
    unfold trouver_case_produit
    simp only [hcur, isActive, hie, Bool.not_false, if_pos, hpm]
    exact scan_eq_find p pm harr
  · rfl

/-- Witness for C7 at a concrete state: product `z` is found at its
location, a missing product gives `none`, and so does an empty store. -/
theorem C7_witness :
    trouver_case_produit sCur "z" =
      .ok (((curDoc.get? 4).map (fun _ => "B")).map id) ∧
    trouver_case_produit ⟨⟨[], []⟩, none⟩ "z" = .ok none := by
  have h := C7_find_location sCur "z" curDoc ⟨[], []⟩
    [("B", .arr [.str "z"])] rfl rfl (by intro kv hkv; simp at hkv; rw [hkv]; rfl)
  constructor
  · rw [h.1]; rfl
  · exact h.2

/-- C2: on a successful creation with a well-formed name, the plan source
file is copied to `plan<original-extension>` directly inside the project
directory `<projects-root>/<name>/` that the operation created. -/
theorem C2_plan_copied_into_project_dir (s : S)
    (nom magasin auteur plan : String) (pd : FileData)
    (hn : cleanName nom) (hstrip : strip nom = nom)
    (hm : magasin ≠ "") (ha : auteur ≠ "") (hp : plan ≠ "")
    (hex : s.fs.pathExists (projDir nom) = false)
    (hplan : s.fs.fileData plan = some pd)
    (he : cleanExt (splitext plan).2) :
    (creer_projet s nom magasin auteur plan).2 = .ok () ∧
    (creer_projet s nom magasin auteur plan).1.fs.isdir (projDir nom) =
      true ∧
    (creer_projet s nom magasin auteur plan).1.fs.fileData
      (planDest nom (splitext plan).2) = some pd := by
  rw [creer_spec s nom magasin auteur plan pd hn hstrip hm ha hp hex hplan he]
  refine ⟨rfl, by simp [FS.isdir], ?_⟩
  show FS.fileData ⟨_, _⟩ _ = _
  unfold FS.fileData
  rw [List.find?_cons_of_neg _ (by
    simp only [decide_eq_true_eq]
    exact configPath_ne_planDest nom (splitext plan).2 hn he)]
  rw [List.find?_cons_of_pos _ (by simp)]
  rfl

/-- Witness for C2 at a concrete input. -/
theorem C2_witness :
    (creer_projet sW "p1" "Mag" "Moi" "assets/map.png").2 = .ok () ∧
    (creer_projet sW "p1" "Mag" "Moi" "assets/map.png").1.fs.isdir
      (projDir "p1") = true ∧
    (creer_projet sW "p1" "Mag" "Moi" "assets/map.png").1.fs.fileData
      (planDest "p1" (splitext "assets/map.png").2) = some .raw :=
  C2_plan_copied_into_project_dir sW "p1" "Mag" "Moi" "assets/map.png" .raw
    ⟨by decide, by decide, by decide, by decide, by decide⟩ (by decide)
    (by decide) (by decide) (by decide) rfl rfl ⟨by decide, by decide⟩

theorem no_backslash_planPath (nom ext : String) (hn : cleanName nom)
    (he : cleanExt ext) :
    '\\' ∉ ("App1/projets".data ++ '/' :: nom.data ++ '/' ::
      'p' :: 'l' :: 'a' :: 'n' :: ext.data) := by
  simp [hn.2.2.2.2, he.2]

theorem normpath_planDest (nom ext : String) (hn : cleanName nom)
    (he : cleanExt ext) : normpath (planDest nom ext) = planDest nom ext := by
  rw [planDest_clean nom ext hn he]
  exact String.ext_iff.mpr (normpathL_planPath nom ext hn he)

theorem slashify_planDest (nom ext : String) (hn : cleanName nom)
    (he : cleanExt ext) : slashify (planDest nom ext) = planDest nom ext := by
  rw [planDest_clean nom ext hn he]
  exact slashify_of_no_backslash _ (no_backslash_planPath nom ext hn he)

/-- C3: a successful creation followed by a load of the same name yields
exactly the created document: equal in the four required fields and with
an empty placements mapping. -/
theorem C3_create_load_roundtrip (s : S) (nom magasin auteur plan : String)
    (pd : FileData)
    (hn : cleanName nom) (hstrip : strip nom = nom)
    (hm : magasin ≠ "") (ha : auteur ≠ "") (hp : plan ≠ "")
    (hex : s.fs.pathExists (projDir nom) = false)
    (hplan : s.fs.fileData plan = some pd)
    (he : cleanExt (splitext plan).2) :
    (creer_projet s nom magasin auteur plan).2 = .ok () ∧
    (creer_projet s nom magasin auteur plan).1.projet_actuel =
      some (creerCfg nom magasin auteur (planDest nom (splitext plan).2)) ∧
    (charger_projet (creer_projet s nom magasin auteur plan).1 nom).2 =
      .ok (creerCfg nom magasin auteur (planDest nom (splitext plan).2)) ∧
    dget (creerCfg nom magasin auteur (planDest nom (splitext plan).2))
      "produits" = some (.obj []) := by
  rw [creer_spec s nom magasin auteur plan pd hn hstrip hm ha hp hex hplan he]
  refine ⟨rfl, rfl, ?_, rfl⟩
  rw [charger_spec _ nom (planDest nom (splitext plan).2)
    (creerCfg nom magasin auteur (planDest nom (splitext plan).2))
    (by simp [FS.isdir])
    (by unfold FS.fileData; rw [List.find?_cons_of_pos _ (by simp)]; rfl)
    rfl rfl rfl rfl]
  rw [normpath_planDest nom _ hn he, slashify_planDest nom _ hn he]
  rfl

/-- Witness for C3 at a concrete input. -/
theorem C3_witness :
    (creer_projet sW "p1" "Mag" "Moi" "assets/map.png").2 = .ok () ∧
    (creer_projet sW "p1" "Mag" "Moi" "assets/map.png").1.projet_actuel =
      some (creerCfg "p1" "Mag" "Moi"
        (planDest "p1" (splitext "assets/map.png").2)) ∧
    (charger_projet (creer_projet sW "p1" "Mag" "Moi" "assets/map.png").1
        "p1").2 =
      .ok (creerCfg "p1" "Mag" "Moi"
        (planDest "p1" (splitext "assets/map.png").2)) ∧
    dget (creerCfg "p1" "Mag" "Moi"
      (planDest "p1" (splitext "assets/map.png").2)) "produits" =
      some (.obj []) :=
  C3_create_load_roundtrip sW "p1" "Mag" "Moi" "assets/map.png" .raw
    ⟨by decide, by decide, by decide, by decide, by decide⟩ (by decide)
    (by decide) (by decide) (by decide) rfl rfl ⟨by decide, by decide⟩

theorem normaliseProduits_canonical (d : Dict) (pm : List (String × JValue))
    (hleg : dmem d "produits_par_case" = false)
    (hpm : dget d "produits" = some (.obj pm)) :
    normaliseProduits d = d := by
  unfold normaliseProduits
  rw [if_neg (by rw [hleg]; exact Bool.false_ne_true),
    if_neg (by simp [dmem, hpm]), hpm]

theorem obtenir_of_obj (fs1 : FS) (d1 : Dict)
    (pm1 : List (String × JValue)) (k : String)
    (hne : d1 ≠ []) (hpm1 : dget d1 "produits" = some (.obj pm1)) :
    obtenir_produits_case ⟨fs1, some d1⟩ k =
      .ok ((dget pm1 k).getD (.arr [])) := by
  unfold obtenir_produits_case
  rw [if_pos (by simp [isActive, isEmpty_false_of_ne_nil hne])]
  simp only [hpm1]

/-- C4: with a canonical current project, storing a non-empty sequence
under a location key, reading it back returns exactly that sequence, and
the persisted document, reloaded through `charger_projet`, carries the
sequence under the same key. -/
theorem C4_set_get_persist_roundtrip (s : S) (nomv caseK cp : String)
    (P : List JValue) (d : Dict) (pm : List (String × JValue))
    (hP : P ≠ [])
    (hcur : s.projet_actuel = some d)
    (hnom : dget d "nom" = some (.str nomv))
    (hmag : dmem d "magasin" = true) (haut : dmem d "auteur" = true)
    (hcp : dget d "chemin_plan" = some (.str cp))
    (hpm : dget d "produits" = some (.obj pm))
    (hleg : dmem d "produits_par_case" = false)
    (hdir : s.fs.isdir (projDir nomv) = true) :
    (definir_produits_case s caseK P).2 = .ok () ∧
    obtenir_produits_case (definir_produits_case s caseK P).1 caseK =
      .ok (.arr P) ∧
    (charger_projet (definir_produits_case s caseK P).1 nomv).2 =
      .ok (dset (dset d "produits" (.obj (dset pm caseK (.arr P))))
        "chemin_plan" (.str (slashify (normpath cp)))) ∧
    dget (dset (dset d "produits" (.obj (dset pm caseK (.arr P))))
        "chemin_plan" (.str (slashify (normpath cp)))) "produits" =
      some (.obj (dset pm caseK (.arr P))) ∧
    dget (dset pm caseK (.arr P)) caseK = some (.arr P) := by
  have hne : d ≠ [] := dget_isSome_ne_nil hnom
  have hPfalse : P.isEmpty = false := by
    cases P with
    | nil => exact absurd rfl hP
    | cons a t => rfl
  have hnom' : dget (dset d "produits" (.obj (dset pm caseK (.arr P))))
      "nom" = some (.str nomv) := by
    rw [dget_dset_ne d _ _ _ (by decide)]
    exact hnom
  have hstep : definir_produits_case s caseK P =
      (⟨s.fs.writeFile (configPath nomv) (.json (.obj (dset d "produits"
          (.obj (dset pm caseK (.arr P)))))),
        some (dset d "produits" (.obj (dset pm caseK (.arr P))))⟩,
       .ok ()) := by
    unfold definir_produits_case
    rw [if_pos (by rw [hcur]; simp [isActive, isEmpty_false_of_ne_nil hne])]
    simp only [hcur]
    rw [if_pos hPfalse]
    simp only [hpm]
    rw [sauvegarder_spec ⟨s.fs, some (dset d "produits"
        (.obj (dset pm caseK (.arr P))))⟩
      (dset d "produits" (.obj (dset pm caseK (.arr P)))) nomv rfl hnom'
      hdir]
  have hpmNew : dget (dset d "produits" (.obj (dset pm caseK (.arr P))))
      "produits" = some (.obj (dset pm caseK (.arr P))) :=
    dget_dset_self d "produits" _
  have hcp' : dget (dset d "produits" (.obj (dset pm caseK (.arr P))))
      "chemin_plan" = some (.str cp) := by
    rw [dget_dset_ne d _ _ _ (by decide)]
    exact hcp
  have hleg' : dmem (dset d "produits" (.obj (dset pm caseK (.arr P))))
      "produits_par_case" = false := by
    rw [dmem_dset_ne d _ _ _ (by decide)]
    exact hleg
  refine ⟨by rw [hstep], ?_, ?_, ?_, dget_dset_self pm caseK (.arr P)⟩
  · rw [hstep]
    rw [obtenir_of_obj _ _ (dset pm caseK (.arr P)) caseK
      (dset_ne_nil d _ _) hpmNew, dget_dset_self pm caseK (.arr P)]
    rfl
  · rw [hstep]
    rw [charger_spec _ nomv cp (dset d "produits" (.obj (dset pm caseK
        (.arr P))))
      (by rw [isdir_writeFile]; exact hdir)
      (fileData_writeFile_self _ _ _)
      (by simp [dmem, hnom'])
      (by rw [dmem_dset_ne d _ _ _ (by decide)]; exact hmag)
      (by rw [dmem_dset_ne d _ _ _ (by decide)]; exact haut)
      hcp']
    rw [normaliseProduits_canonical _ (dset pm caseK (.arr P))
      (by rw [dmem_dset_ne _ _ _ _ (by decide)]; exact hleg')
      (by rw [dget_dset_ne _ _ _ _ (by decide)]; exact hpmNew)]
  · rw [dget_dset_ne _ _ _ _ (by decide)]
    exact hpmNew

/-- Witness for C4 at a concrete state. -/
theorem C4_witness :
    (definir_produits_case sCur "A" [.str "x"]).2 = .ok () ∧
    obtenir_produits_case (definir_produits_case sCur "A" [.str "x"]).1
      "A" = .ok (.arr [.str "x"]) ∧
    (charger_projet (definir_produits_case sCur "A" [.str "x"]).1 "p1").2 =
      .ok (dset (dset curDoc "produits"
        (.obj (dset [("B", .arr [.str "z"])] "A" (.arr [.str "x"]))))
        "chemin_plan"
        (.str (slashify (normpath "App1/projets/p1/plan.png")))) ∧
    dget (dset (dset curDoc "produits"
        (.obj (dset [("B", .arr [.str "z"])] "A" (.arr [.str "x"]))))
        "chemin_plan"
        (.str (slashify (normpath "App1/projets/p1/plan.png"))))
      "produits" =
      some (.obj (dset [("B", .arr [.str "z"])] "A" (.arr [.str "x"]))) ∧
    dget (dset [("B", .arr [.str "z"])] "A" (.arr [.str "x"])) "A" =
      some (.arr [.str "x"]) :=
  C4_set_get_persist_roundtrip sCur "p1" "A" "App1/projets/p1/plan.png"
    [.str "x"] curDoc [("B", .arr [.str "z"])] (by simp) rfl rfl rfl rfl
    rfl rfl rfl rfl

theorem noEmptySeq_dset (kvs : List (String × JValue)) (k : String)
    (v : JValue) (h : noEmptySeq kvs) (hv : v ≠ .arr []) :
    noEmptySeq (dset kvs k v) := by
  induction kvs with
  | nil =>
    intro p hp
    simp [dset] at hp
    rw [hp]
    exact hv
  | cons q rest ih =>
    obtain ⟨k0, w⟩ := q
    by_cases h0 : k0 = k
    · intro p hp
      simp only [dset, if_pos h0] at hp
      rcases List.mem_cons.mp hp with h1 | h1
      · rw [h1]; exact hv
      · exact h p (List.mem_cons_of_mem _ h1)
    · intro p hp
      simp only [dset, if_neg h0] at hp
      rcases List.mem_cons.mp hp with h1 | h1
      · rw [h1]; exact h (k0, w) (by simp)
      · exact ih (fun q hq => h q (List.mem_cons_of_mem _ hq)) p h1

theorem noEmptySeq_ddel (kvs : List (String × JValue)) (k : String)
    (h : noEmptySeq kvs) : noEmptySeq (ddel kvs k) := by
  induction kvs with
  | nil => intro p hp; simp [ddel] at hp
  | cons q rest ih =>
    obtain ⟨k0, w⟩ := q
    by_cases h0 : k0 = k
    · simp only [ddel, if_pos h0]
      exact fun p hp => h p (List.mem_cons_of_mem _ hp)
    · simp only [ddel, if_neg h0]
      intro p hp
      rcases List.mem_cons.mp hp with h1 | h1
      · rw [h1]; exact h (k0, w) (by simp)
      · exact ih (fun q hq => h q (List.mem_cons_of_mem _ hq)) p h1

theorem sauvegarder_keeps_pa (s : S) :
    (sauvegarder s).1.projet_actuel = s.projet_actuel := by
  unfold sauvegarder
  split
  case isTrue =>
    split
    case h_1 => rfl
    case h_2 =>
      split
      case h_1 => rfl
      case h_2 =>
        split
        case isTrue => rfl
        case isFalse => rfl
      case h_3 => rfl
  case isFalse => rfl

/-- Case split of `creer_projet`: either it fails leaving the state
untouched, or it succeeds and the new current project carries an empty
placements mapping and the stripped name. -/
theorem creer_shape (s : S) (nom magasin auteur plan : String) :
    ((creer_projet s nom magasin auteur plan).1 = s ∧
      ∃ e, (creer_projet s nom magasin auteur plan).2 = .error e) ∨
    (∃ cfg fs1, creer_projet s nom magasin auteur plan =
        (⟨fs1, some cfg⟩, .ok ()) ∧
      dget cfg "produits" = some (.obj []) ∧
      dget cfg "nom" = some (.str (strip nom))) := by
  unfold creer_projet
  dsimp only
  split
  · exact Or.inl ⟨rfl, _, rfl⟩
  · split
    · exact Or.inl ⟨rfl, _, rfl⟩
    · split
      · exact Or.inl ⟨rfl, _, rfl⟩
      · split
        · exact Or.inr ⟨_, _, rfl, rfl, rfl⟩
        · exact Or.inl ⟨rfl, _, rfl⟩

/-- Case split of `charger_projet`: either it fails leaving the state
untouched, or the document on disk is a JSON object passing field
validation and both the result and the new current project are its
normalization. -/
theorem charger_shape (s : S) (nom : String) :
    ((charger_projet s nom).1 = s ∧
      ∃ e, (charger_projet s nom).2 = .error e) ∨
    (∃ d p, s.fs.fileData (configPath nom) = some (.json (.obj d)) ∧
      allIn (.obj d) ["nom", "magasin", "auteur", "chemin_plan"] =
        .ok true ∧
      dget d "chemin_plan" = some (.str p) ∧
      charger_projet s nom =
        ({ s with projet_actuel := some (normaliseProduits
            (dset d "chemin_plan" (.str (slashify (normpath p))))) },
         .ok (normaliseProduits
           (dset d "chemin_plan" (.str (slashify (normpath p))))))) := by
  unfold charger_projet
  dsimp only
  split
  case isFalse => exact Or.inl ⟨rfl, _, rfl⟩
  case isTrue =>
    split
    · exact Or.inl ⟨rfl, _, rfl⟩
    · exact Or.inl ⟨rfl, _, rfl⟩
    · split
      · exact Or.inl ⟨rfl, _, rfl⟩
      · exact Or.inl ⟨rfl, _, rfl⟩
      · split
        · split
          · refine Or.inr ⟨_, _, ?_, ?_, ?_, rfl⟩
            · show s.fs.fileData (pjoin (pjoin DOSSIER_PROJETS nom)
                "config.json") = _
              assumption
            · assumption
            · assumption
          · exact Or.inl ⟨rfl, _, rfl⟩
          · exact Or.inl ⟨rfl, _, rfl⟩
        · exact Or.inl ⟨rfl, _, rfl⟩

/-- The placements mapping of the load normalization never binds a key
to an empty sequence, provided the disk document's own mappings do not. -/
theorem invPlacements_normalise (d : Dict) (x : JValue)
    (h1 : ∀ pm, dget d "produits_par_case" = some (.obj pm) → noEmptySeq pm)
    (h2 : dmem d "produits_par_case" = false →
      ∀ pm, dget d "produits" = some (.obj pm) → noEmptySeq pm) :
    ∀ pm, dget (normaliseProduits (dset d "chemin_plan" x)) "produits" =
      some (.obj pm) → noEmptySeq pm := by
  intro pm hpm
  unfold normaliseProduits at hpm
  split at hpm
  case isTrue hleg =>
    rw [dget_dset_self] at hpm
    have hleg2 : dmem d "produits_par_case" = true := by
      rw [dmem_dset_ne _ _ _ _ (by decide)] at hleg
      exact hleg
    obtain ⟨w, hw⟩ : ∃ w, dget d "produits_par_case" = some w := by
      cases hh : dget d "produits_par_case" with
      | none => rw [dmem, hh] at hleg2; simp at hleg2
      | some w => exact ⟨w, rfl⟩
    have hw2 : dget (dset d "chemin_plan" x) "produits_par_case" =
        some w := by
      rw [dget_dset_ne _ _ _ _ (by decide)]
      exact hw
    rw [hw2] at hpm
    injection hpm with hpm1
    have hpm2 : w = .obj pm := hpm1
    exact h1 pm (hpm2 ▸ hw)
  case isFalse hleg =>
    split at hpm
    case isTrue =>
      rw [dget_dset_self] at hpm
      injection hpm with hpm1
      injection hpm1 with hpm2
      rw [← hpm2]
      intro q hq
      simp at hq
    case isFalse hprodmem =>
      split at hpm
      case h_1 xs hxs =>
        rw [dget_dset_self] at hpm
        injection hpm with hpm1
        injection hpm1 with hpm2
        rw [← hpm2]
        intro q hq
        simp at hq
      case h_2 hnotarr =>
        rw [dget_dset_ne _ _ _ _ (by decide)] at hpm
        have hleg3 : dmem d "produits_par_case" = false := by
          rw [dmem_dset_ne _ _ _ _ (by decide)] at hleg
          exact Bool.eq_false_iff.mpr hleg
        exact h2 hleg3 pm hpm

/-- C5 amended: creation establishes the no-empty-sequence invariant and
`definir_produits_case` preserves it, removing the key entirely when
given an empty sequence that is currently present; `charger_projet`
establishes it only provided the persisted document's own placements
mappings contain no empty sequence — the code does not filter empty
sequences out of loaded documents. -/
theorem C5_amended_invariant :
    (∀ s nom magasin auteur plan, Inv s →
      Inv (creer_projet s nom magasin auteur plan).1) ∧
    (∀ s caseK produits, Inv s →
      Inv (definir_produits_case s caseK produits).1) ∧
    (∀ s caseK d kvs, s.projet_actuel = some d →
      dget d "produits" = some (.obj kvs) → dmem kvs caseK = true →
      (definir_produits_case s caseK []).1.projet_actuel =
        some (dset d "produits" (.obj (ddel kvs caseK)))) ∧
    (∀ s nom, Inv s → DiskOk s nom → Inv (charger_projet s nom).1) := by
  refine ⟨?_, ?_, ?_, ?_⟩
  · intro s nom magasin auteur plan hInv
    rcases creer_shape s nom magasin auteur plan with ⟨h1, _⟩ |
      ⟨cfg, fs1, heq, hprod, _⟩
    · show invPlacements (creer_projet s nom magasin auteur plan).1.2
      rw [h1]
      exact hInv
    · show invPlacements (creer_projet s nom magasin auteur plan).1.2
      rw [heq]
      intro pm hpm
      rw [hprod] at hpm
      injection hpm with hpm1
      injection hpm1 with hpm2
      rw [← hpm2]
      intro q hq
      simp at hq
  · intro s caseK produits hInv
    unfold definir_produits_case
    split
    case isTrue hact =>
      split
      case h_1 => exact hInv
      case h_2 d hd =>
        have hInv2 : ∀ pm, dget d "produits" = some (.obj pm) →
            noEmptySeq pm := by
          have hh : invPlacements s.projet_actuel := hInv
          rw [hd] at hh
          exact hh
        split
        case isTrue hPne =>
          split
          case h_1 => exact hInv
          case h_2 kvs hkvs =>
            show invPlacements (sauvegarder _).1.projet_actuel
            rw [sauvegarder_keeps_pa]
            intro pm hpm
            rw [dget_dset_self] at hpm
            injection hpm with h1
            injection h1 with h2
            rw [← h2]
            refine noEmptySeq_dset _ caseK _ (hInv2 _ hkvs) ?_
            intro hh
            injection hh with h3
            rw [h3] at hPne
            simp at hPne
          case h_3 v hv hnotobj => exact hInv
        case isFalse hPe =>
          split
          case h_1 => exact hInv
          case h_2 v hv =>
            split
            case h_1 e he => exact hInv
            case h_2 hin =>
              split
              case h_1 kvs hkvs =>
                show invPlacements (sauvegarder _).1.projet_actuel
                rw [sauvegarder_keeps_pa]
                intro pm hpm
                rw [dget_dset_self] at hpm
                injection hpm with h1
                injection h1 with h2
                rw [← h2]
                exact noEmptySeq_ddel _ caseK (hInv2 _ hv)
              case h_2 => exact hInv
            case h_3 hin =>
              show invPlacements (sauvegarder s).1.projet_actuel
              rw [sauvegarder_keeps_pa]
              exact hInv
    case isFalse => exact hInv
  · intro s caseK d kvs hd hkvs hmem
    have hne : d ≠ [] := dget_isSome_ne_nil hkvs
    unfold definir_produits_case
    rw [if_pos (by rw [hd]; simp [isActive, isEmpty_false_of_ne_nil hne])]
    simp only [hd]
    rw [if_neg (by simp)]
    simp only [hkvs, pyInV, hmem]
    rw [sauvegarder_keeps_pa]
  · intro s nom hInv hDisk
    rcases charger_shape s nom with ⟨h1, _⟩ | ⟨d, p, hfd, hall, hp, heq⟩
    · show invPlacements (charger_projet s nom).1.2
      rw [h1]
      exact hInv
    · show invPlacements (charger_projet s nom).1.2
      rw [heq]
      have hfd2 : s.fs.fileData (pjoin (pjoin DOSSIER_PROJETS nom)
          "config.json") = some (.json (.obj d)) := hfd
      have hDisk2 := hDisk
      unfold DiskOk at hDisk2
      rw [hfd2] at hDisk2
      exact invPlacements_normalise d _ hDisk2.1 hDisk2.2

/-- Witness for the amended C5 at concrete states. -/
theorem C5_witness :
    Inv (creer_projet sW "p1" "Mag" "Moi" "assets/map.png").1 ∧
    Inv (definir_produits_case sCur "A" [.str "x"]).1 ∧
    (definir_produits_case sCur "B" []).1.projet_actuel =
      some (dset curDoc "produits"
        (.obj (ddel [("B", .arr [.str "z"])] "B"))) ∧
    Inv (charger_projet sCur "p1").1 := by
  have hInvCur : Inv sCur := by
    intro pm hpm
    injection hpm with h1
    injection h1 with h2
    rw [← h2]
    intro q hq
    simp at hq
    rw [hq]
    simp
  have hDiskCur : DiskOk sCur "p1" := by
    show (∀ pm, dget curDoc "produits_par_case" = some (.obj pm) →
        noEmptySeq pm) ∧
      (dmem curDoc "produits_par_case" = false →
        ∀ pm, dget curDoc "produits" = some (.obj pm) → noEmptySeq pm)
    have hleft : ∀ pm, dget curDoc "produits_par_case" =
        some (.obj pm) → noEmptySeq pm := fun pm h => nomatch h
    refine ⟨hleft, fun _ pm hpm => ?_⟩
    injection hpm with h1
    injection h1 with h2
    rw [← h2]
    intro q hq
    simp at hq
    rw [hq]
    simp
  exact ⟨C5_amended_invariant.1 sW "p1" "Mag" "Moi" "assets/map.png" trivial,
    C5_amended_invariant.2.1 sCur "A" [.str "x"] hInvCur,
    C5_amended_invariant.2.2.1 sCur "B" curDoc [("B", .arr [.str "z"])]
      rfl rfl rfl,
    C5_amended_invariant.2.2.2 sCur "p1" hInvCur hDiskCur⟩

/-! Lemmas for C10: no operation reports a missing-key error once the
current project carries the placements and name keys. -/

theorem pyInV_not_keyError (p : String) (v : JValue) :
    pyInV p v ≠ .error .keyError := by
  cases v <;> simp [pyInV]

theorem extendAll_not_keyError (acc : List JValue)
    (kvs : List (String × JValue)) :
    extendAll acc kvs ≠ .error .keyError := by
  induction kvs generalizing acc with
  | nil => simp [extendAll]
  | cons q rest ih =>
    obtain ⟨k0, v⟩ := q
    unfold extendAll
    cases v with
    | arr xs => exact ih _
    | str t => exact ih _
    | obj kv2 => exact ih _
    | null => simp [pyExtend]
    | bool b => simp [pyExtend]
    | num n => simp [pyExtend]

theorem scan_not_keyError (p : String) (kvs : List (String × JValue)) :
    scanPlacements p kvs ≠ .error .keyError := by
  induction kvs with
  | nil => simp [scanPlacements]
  | cons q rest ih =>
    obtain ⟨k0, v⟩ := q
    unfold scanPlacements
    cases hpi : pyInV p v with
    | error e =>
      have h2 := pyInV_not_keyError p v
      rw [hpi] at h2
      simpa using h2
    | ok b =>
      cases b with
      | false => simpa using ih
      | true => simp

theorem sauvegarder_not_keyError (s : S) (d : Dict) (nv : JValue)
    (hpa : s.projet_actuel = some d) (hnv : dget d "nom" = some nv) :
    (sauvegarder s).2 ≠ .error .keyError := by
  unfold sauvegarder
  split
  case isFalse => simp
  case isTrue =>
    rw [hpa]
    split
    case h_1 heq => exact absurd heq (by simp)
    case h_2 d2 heq =>
      injection heq with heq2
      subst heq2
      split
      case h_1 heq3 => rw [hnv] at heq3; exact absurd heq3 (by simp)
      case h_2 => split <;> simp
      case h_3 => simp

theorem noKeyErr_of_fields (s : S) (c : Dict) (nv : JValue)
    (hpa : s.projet_actuel = some c)
    (hprod : dmem c "produits" = true) (hnv : dget c "nom" = some nv) :
    noKeyErrState s := by
  have hne : c ≠ [] := by
    intro hh
    rw [hh] at hprod
    simp [dmem, dget] at hprod
  have hie := isEmpty_false_of_ne_nil hne
  obtain ⟨pv, hpv⟩ : ∃ v, dget c "produits" = some v := by
    cases hd : dget c "produits" with
    | none => rw [dmem, hd] at hprod; simp at hprod
    | some v => exact ⟨v, rfl⟩
  intro k P
  refine ⟨?_, ?_, ?_, ?_⟩
  · unfold obtenir_produits_case
    rw [if_pos (by rw [hpa]; simp [isActive, hie])]
    simp only [hpa, hpv]
    cases pv <;> simp
  · unfold definir_produits_case
    rw [if_pos (by rw [hpa]; simp [isActive, hie])]
    simp only [hpa, hpv]
    by_cases hPe : P.isEmpty = false
    · rw [if_pos hPe]
      cases pv with
      | obj kvs =>
        exact sauvegarder_not_keyError
          ⟨s.fs, some (dset c "produits" (.obj (dset kvs k (.arr P))))⟩
          _ nv rfl
          (by rw [dget_dset_ne c _ _ _ (by decide)]; exact hnv)
      | null => simp
      | bool b => simp
      | num n => simp
      | str t => simp
      | arr xs => simp
    · rw [if_neg hPe]
      cases hpi : pyInV k pv with
      | error e =>
        have h2 := pyInV_not_keyError k pv
        rw [hpi] at h2
        simpa using h2
      | ok b =>
        cases b with
        | true =>
          cases pv with
          | obj kvs =>
            exact sauvegarder_not_keyError
              ⟨s.fs, some (dset c "produits" (.obj (ddel kvs k)))⟩
              _ nv rfl
              (by rw [dget_dset_ne c _ _ _ (by decide)]; exact hnv)
          | null => simp
          | bool b2 => simp
          | num n => simp
          | str t => simp
          | arr xs => simp
        | false => exact sauvegarder_not_keyError s c nv hpa hnv
  · unfold obtenir_tous_produits_places
    rw [if_pos (by rw [hpa]; simp [isActive, hie])]
    simp only [hpa, hpv]
    cases pv with
    | obj kvs => exact extendAll_not_keyError [] kvs
    | null => simp
    | bool b => simp
    | num n => simp
    | str t => simp
    | arr xs => simp
  · unfold trouver_case_produit
    rw [if_pos (by rw [hpa]; simp [isActive, hie])]
    simp only [hpa, hpv]
    cases pv with
    | obj kvs => exact scan_not_keyError k kvs
    | null => simp
    | bool b => simp
    | num n => simp
    | str t => simp
    | arr xs => simp

theorem allIn_obj_implies (d : Dict) (ks : List String)
    (h : allIn (.obj d) ks = .ok true) : ∀ k ∈ ks, dmem d k = true := by
  induction ks with
  | nil => simp
  | cons k rest ih =>
    intro k1 hk1
    by_cases hm : dmem d k = true
    · rcases List.mem_cons.mp hk1 with h1 | h1
      · rw [h1]; exact hm
      · refine ih ?_ k1 h1
        unfold allIn at h
        simpa [pyInV, hm] using h
    · have hm2 : dmem d k = false := Bool.eq_false_iff.mpr hm
      unfold allIn at h
      simp [pyInV, hm2] at h

theorem dget_normaliseProduits_other (d : Dict) (k : String)
    (h1 : k ≠ "produits") (h2 : k ≠ "produits_par_case") :
    dget (normaliseProduits d) k = dget d k := by
  unfold normaliseProduits
  split
  · rw [dget_dset_ne _ _ _ _ h1, dget_ddel_ne _ _ _ h2]
  · split
    · rw [dget_dset_ne _ _ _ _ h1]
    · split
      · rw [dget_dset_ne _ _ _ _ h1]
      · rfl

theorem dmem_normaliseProduits (d : Dict) :
    dmem (normaliseProduits d) "produits" = true := by
  unfold normaliseProduits
  split
  · exact dmem_dset_self _ _ _
  · split
    · exact dmem_dset_self _ _ _
    · next h2 =>
      split
      · exact dmem_dset_self _ _ _
      · exact not_not.mp h2

/-- C10: whenever `creer_projet` or `charger_projet` succeeds and sets
the current project, the project document carries the placements key
`produits`, and none of the four placement operations can fail with a
missing-key error on that state. -/
theorem C10_produits_key_present (s : S) (nom magasin auteur plan : String) :
    ((creer_projet s nom magasin auteur plan).2 = .ok () →
      ∃ cfg, (creer_projet s nom magasin auteur plan).1.projet_actuel =
          some cfg ∧ dmem cfg "produits" = true ∧
        noKeyErrState (creer_projet s nom magasin auteur plan).1) ∧
    (∀ c, (charger_projet s nom).2 = .ok c →
      (charger_projet s nom).1.projet_actuel = some c ∧
        dmem c "produits" = true ∧
        noKeyErrState (charger_projet s nom).1) := by
  constructor
  · intro hok
    rcases creer_shape s nom magasin auteur plan with ⟨h1, e, h2⟩ |
      ⟨cfg, fs1, heq, hprod, hnom⟩
    · rw [h2] at hok
      exact absurd hok (by simp)
    · rw [heq]
      exact ⟨cfg, rfl, by simp [dmem, hprod],
        noKeyErr_of_fields ⟨fs1, some cfg⟩ cfg (.str (strip nom)) rfl
          (by simp [dmem, hprod]) hnom⟩
  · intro c hok
    rcases charger_shape s nom with ⟨h1, e, h2⟩ | ⟨d, p, hfd, hall, hp, heq⟩
    · rw [h2] at hok
      exact absurd hok (by simp)
    · rw [heq] at hok ⊢
      have hc : c = normaliseProduits (dset d "chemin_plan"
          (.str (slashify (normpath p)))) := by
        injection hok with h3
        exact h3.symm
      subst hc
      have hnomd : dmem d "nom" = true :=
        allIn_obj_implies d _ hall "nom" (by simp)
      obtain ⟨nv, hnv⟩ : ∃ v, dget d "nom" = some v := by
        cases hh : dget d "nom" with
        | none => rw [dmem, hh] at hnomd; simp at hnomd
        | some v => exact ⟨v, rfl⟩
      have hnv2 : dget (normaliseProduits (dset d "chemin_plan"
          (.str (slashify (normpath p))))) "nom" = some nv := by
        rw [dget_normaliseProduits_other _ _ (by decide) (by decide),
          dget_dset_ne _ _ _ _ (by decide)]
        exact hnv
      exact ⟨rfl, dmem_normaliseProduits _,
        noKeyErr_of_fields _ _ nv rfl (dmem_normaliseProduits _) hnv2⟩

/-- Witness for C10 at concrete inputs. -/
theorem C10_witness :
    (∃ cfg, (creer_projet sW "p1" "Mag" "Moi"
        "assets/map.png").1.projet_actuel = some cfg ∧
      dmem cfg "produits" = true ∧
      noKeyErrState (creer_projet sW "p1" "Mag" "Moi" "assets/map.png").1) ∧
    ((charger_projet sCur "p1").1.projet_actuel = some curDoc ∧
      dmem curDoc "produits" = true ∧
      noKeyErrState (charger_projet sCur "p1").1) :=
  ⟨(C10_produits_key_present sW "p1" "Mag" "Moi" "assets/map.png").1 rfl,
   (C10_produits_key_present sCur "p1" "m" "a" "x").2 curDoc rfl⟩

end Magasin
